import Mathlib

/-!
Shallow embedding of the `TabView` / `TabButton` widget logic of the `gi`
toolkit (file `tabview.go`).  The tab container owns a strip of tab buttons
and a stacked content frame; the definitions below translate its child
management operations (insert, select, delete, renumber, name lookup, the
trailing new-tab affordance) into pure state-passing functions, and the
theorems settle the specified invariants and contracts about them.

The generic tree-child primitives (`InsertChild` / `InsertNewChild`,
`DeleteChildAtIndex`, indexed child access) come from the external `ki`
scene-graph API and are modelled as ordered-list operations, per the spec's
description of that API as "ordered child insert/delete-at-index, type-based
child creation, named lookup".  Rendering, styling, layout and the
update-batch brackets (`UpdateStart` / `UpdateEnd`, `SetFullReRender`) have
no effect on the managed state and are omitted.
-/

namespace GiTab

/-- Insert a child at a given index, modelling the `ki` tree API
(`InsertChild` / `InsertNewChild`).  An out-of-range index appends at the
end; the documented operations never pass one. -/
def insertAt : Nat → α → List α → List α
  | 0, x, l => x :: l
  | _ + 1, x, [] => [x]
  | n + 1, x, c :: cs => c :: insertAt n x cs

/-- Delete the child at a given index, modelling `DeleteChildAtIndex`;
out of range leaves the list unchanged. -/
def removeAt : Nat → List α → List α
  | _, [] => []
  | 0, _ :: cs => cs
  | n + 1, c :: cs => c :: removeAt n cs

/-- Update the child at a given index in place (a Go method call on a child
obtained by indexed access). -/
def modifyAt (f : α → α) : Nat → List α → List α
  | _, [] => []
  | 0, c :: cs => f c :: cs
  | n + 1, c :: cs => c :: modifyAt f n cs

/-- Position-indexed in-place map starting at position `k`: models the Go
loops `for i := 0; i < sz; i++` that update children through indexed
access. -/
def mapIdxFrom (f : Nat → α → α) : Nat → List α → List α
  | _, [] => []
  | k, c :: cs => f k c :: mapIdxFrom f (k + 1) cs

/-- A tab button: `ki` node name (set from the label at creation), displayed
text, tooltip, the index tag stored in `Data`, and the selected visual
state. -/
structure TabButton where
  name : String
  text : String
  tooltip : String
  data : Int
  selected : Bool
deriving DecidableEq, Repr

/-- A child of the tab strip: either a `TabButton`, or the trailing
"new-tab" `Action` added by `ConfigNewTabButton` (node name `"new-tab"`,
`Data = -1`). -/
inductive StripChild where
  | tab (tb : TabButton)
  | newTabAct
deriving DecidableEq, Repr

def isTab : StripChild → Bool
  | .tab _ => true
  | .newTabAct => false

/-- The `ki` node name of a strip child. -/
def stripName : StripChild → String
  | .tab b => b.name
  | .newTabAct => "new-tab"

/-- The `Data` index tag of a strip child. -/
def stripData : StripChild → Int
  | .tab b => b.data
  | .newTabAct => -1

/-- The selected state reported by a strip child. -/
def stripSelected : StripChild → Bool
  | .tab b => b.selected
  | .newTabAct => false

/-- A content widget in the stacked frame: an identity (Go pointer
identity) and the invisible-tree flag toggled by `SetInvisibleTree`. -/
structure Content where
  id : Nat
  visible : Bool
deriving DecidableEq, Repr

/-- The managed state of a `TabView`: the children of the tabs row
(`Tabs()`), the children of the stacked frame (`Frame()`), the frame's
`StackTop` index, and the `NewTabButton` flag.  `MaxChars`, `NewTabType`
and all styling state play no part in the managed-children logic. -/
structure TabView where
  tabsKids : List StripChild
  frameKids : List Content
  stackTop : Int
  newTabButton : Bool
deriving DecidableEq, Repr

/-- The state `InitTabView` establishes: both child frames empty, the
frame's `StackTop` at its Go zero value `0`, and `NewTabButton` at its zero
value `false` (so the `ConfigNewTabButton` call inside `InitTabView` is a
no-op). -/
def initTabView : TabView :=
  { tabsKids := [], frameKids := [], stackTop := 0, newTabButton := false }

/-- `NTabs`: the number of tabs, read from the stacked frame's children. -/
def NTabs (tv : TabView) : Nat :=
  tv.frameKids.length

/-- `CurTab`: currently selected tab widget, its index, and a found flag.
In the last branch the Go code accesses `fr.KnownChild(fr.StackTop)`
unchecked; an out-of-range `StackTop` panics there, which this embedding
totalizes as a `none` first component. -/
def CurTab (tv : TabView) : Option Content × Int × Bool :=
  if NTabs tv = 0 then (none, -1, false)
  else if tv.stackTop < 0 then (none, -1, false)
  else (tv.frameKids[tv.stackTop.toNat]?, tv.stackTop, true)

/-- `TabAtIndex`: content widget and tab button at an index; out of range
logs a diagnostic and reports not-found, with no state change.  When the
index is in range the Go code casts the strip child to `*TabButton`
unchecked (panicking on the new-tab action); that branch is totalized as
`none` and never arises on index-aligned states. -/
def TabAtIndex (tv : TabView) (idx : Int) : Option (Content × TabButton) :=
  if idx < 0 ∨ (NTabs tv : Int) ≤ idx then none
  else
    match tv.tabsKids[idx.toNat]? with
    | some (.tab b) =>
      match tv.frameKids[idx.toNat]? with
      | some c => some (c, b)
      | none => none
    | _ => none

/-- The `SetSelectedState` call on the button at a strip position. -/
def setSelAt (l : List StripChild) (i : Nat) (s : Bool) : List StripChild :=
  modifyAt (fun c => match c with
    | .tab b => .tab { b with selected := s }
    | c => c) i l

/-- `UnselectOtherTabs`: turn off all tabs in the first `NTabs` strip
positions except the given index. -/
def UnselectOtherTabs (tv : TabView) (idx : Int) : TabView :=
  let sz := NTabs tv
  { tv with tabsKids := mapIdxFrom (fun i c =>
      if i < sz ∧ (i : Int) ≠ idx then
        match c with
        | .tab b => .tab { b with selected := false }
        | c => c
      else c) 0 tv.tabsKids }

/-- `RenumberTabs`: assign index tag `i` to the tab at each of the first
`NTabs` strip positions. -/
def RenumberTabs (tv : TabView) : TabView :=
  let sz := NTabs tv
  { tv with tabsKids := mapIdxFrom (fun i c =>
      if i < sz then
        match c with
        | .tab b => .tab { b with data := (i : Int) }
        | c => c
      else c) 0 tv.tabsKids }

/-- `SelectTabIndex`: select the tab at an index; the second component is
the selected content widget (`some` exactly when the Go code returns
`true`). -/
def SelectTabIndex (tv : TabView) (idx : Int) : TabView × Option Content :=
  match TabAtIndex tv idx with
  | none => (tv, none)
  | some (widg, _) =>
    if tv.stackTop = idx then (tv, some widg)
    else
      let tv1 := UnselectOtherTabs tv idx
      let tv2 := { tv1 with tabsKids := setSelAt tv1.tabsKids idx.toNat true }
      ({ tv2 with stackTop := idx }, some widg)

/-- The signals a `TabView` can emit. -/
inductive TabViewSignals where
  | tabSelected
  | tabAdded
  | tabDeleted
deriving DecidableEq, Repr

/-- `SelectTabIndexAction`: select and, on success only, emit one
`TabSelected` signal carrying the index. -/
def SelectTabIndexAction (tv : TabView) (idx : Int) :
    TabView × List (TabViewSignals × Int) :=
  let r := SelectTabIndex tv idx
  if r.2.isSome then (r.1, [(.tabSelected, idx)]) else (r.1, [])

/-- `ki.Slice.IndexByName`: first-match linear name lookup over the
children, modelling the external tree API the spec describes as "linear
name lookup over the tab strip (first match)". -/
def IndexByName : List StripChild → String → Option Nat
  | [], _ => none
  | c :: cs, label =>
    if stripName c = label then some 0
    else (IndexByName cs label).map (· + 1)

/-- `TabByName`: name lookup over the tab strip, then the content widget at
the found index (`KnownChild` there is totalized via `[·]?`). -/
def TabByName (tv : TabView) (label : String) : Option (Content × Nat) :=
  match IndexByName tv.tabsKids label with
  | none => none
  | some idx =>
    match tv.frameKids[idx]? with
    | some widg => some (widg, idx)
    | none => none

/-- `SelectTabByName`: name lookup, then index selection on success. -/
def SelectTabByName (tv : TabView) (label : String) :
    TabView × Option (Content × Nat) :=
  match TabByName tv label with
  | none => (tv, none)
  | some (widg, idx) => ((SelectTabIndex tv (idx : Int)).1, some (widg, idx))

/-- `DeleteTabIndex`: delete the tab at an index; the middle component is
the detached widget returned when `destroy` is false, the last the success
flag. -/
def DeleteTabIndex (tv : TabView) (idx : Int) (destroy : Bool) :
    TabView × Option Content × Bool :=
  match TabAtIndex tv idx with
  | none => (tv, none, false)
  | some (widg, _) =>
    let sz : Int := NTabs tv
    let nxtidx : Int :=
      if tv.stackTop = idx then
        if 0 < idx then idx - 1
        else if idx < sz - 1 then idx
        else -1
      else -1
    let tv1 := { tv with
      frameKids := removeAt idx.toNat tv.frameKids,
      tabsKids := removeAt idx.toNat tv.tabsKids }
    let tv2 := RenumberTabs tv1
    let tv3 := if 0 ≤ nxtidx then (SelectTabIndex tv2 nxtidx).1 else tv2
    if destroy then (tv3, none, true) else (tv3, some widg, true)

/-- `DeleteTabIndexAction`: delete with `destroy = true` and, on success
only, emit one `TabDeleted` signal carrying the index. -/
def DeleteTabIndexAction (tv : TabView) (idx : Int) :
    TabView × List (TabViewSignals × Int) :=
  let r := DeleteTabIndex tv idx true
  if r.2.2 then (r.1, [(.tabDeleted, idx)]) else (r.1, [])

/-- `InsertTabOnlyAt`: insert just the tab button at an index, after the
content widget has already been inserted into the frame.  The new button
gets the label as name, text and tooltip and the index as its `Data` tag.
If the frame now holds a single child, `StackTop` becomes `0` and the new
button is selected; otherwise the new content widget is marked invisible. -/
def InsertTabOnlyAt (tv : TabView) (label : String) (idx : Int) : TabView :=
  let tab : TabButton :=
    { name := label, text := label, tooltip := label, data := idx, selected := false }
  let tv1 := { tv with tabsKids := insertAt idx.toNat (.tab tab) tv.tabsKids }
  if tv1.frameKids.length = 1 then
    { tv1 with stackTop := 0, tabsKids := setSelAt tv1.tabsKids idx.toNat true }
  else
    { tv1 with frameKids :=
        modifyAt (fun c => { c with visible := false }) idx.toNat tv1.frameKids }

/-- `InsertTab`: insert a content widget into the frame at an index, then
the corresponding tab button (inside one update bracket with full
re-render, both without observable effect on the managed state). -/
def InsertTab (tv : TabView) (widg : Content) (label : String) (idx : Int) : TabView :=
  let tv1 := { tv with frameKids := insertAt idx.toNat widg tv.frameKids }
  InsertTabOnlyAt tv1 label idx

/-- `AddTab`: append a widget as a new tab and return the new index. -/
def AddTab (tv : TabView) (widg : Content) (label : String) : TabView × Int :=
  let idx : Int := NTabs tv
  (InsertTab tv widg label idx, idx)

/-- `ConfigNewTabButton`: idempotently add or remove the trailing new-tab
action depending on the `NewTabButton` flag; returns whether anything
changed.  (The Go code also lazily defaults `NewTabType` and wires the
action's signal; neither affects the managed children.) -/
def ConfigNewTabButton (tv : TabView) : TabView × Bool :=
  let sz := NTabs tv
  let ntb := tv.tabsKids.length
  if tv.newTabButton then
    if ntb = sz + 1 then (tv, false)
    else ({ tv with tabsKids := insertAt ntb .newTabAct tv.tabsKids }, true)
  else
    if ntb = sz then (tv, false)
    else ({ tv with tabsKids := removeAt (ntb - 1) tv.tabsKids }, true)

/-- The close-control click handler wired in `TabButton.ConfigParts`: it
resolves the button's stored index tag, walks up to the nearest `TabView`
ancestor (`tb.TabView()`, passed here as an `Option` since the ancestor
lookup lives in the external tree API), and calls `DeleteTabIndexAction`
on it; with no ancestor it does nothing and surfaces nothing. -/
def closeTabClick (tb : TabButton) (anc : Option TabView) :
    Option TabView × List (TabViewSignals × Int) :=
  match anc with
  | none => (none, [])
  | some tvv =>
    let r := DeleteTabIndexAction tvv tb.data
    (some r.1, r.2)

/-- Every strip child is a tab button (no trailing new-tab action). -/
def AllTabs (l : List StripChild) : Prop :=
  ∀ c ∈ l, isTab c = true

/-- Every strip child's index tag equals its position. -/
def TagsOK (l : List StripChild) : Prop :=
  ∀ i, i < l.length → (l[i]?).map stripData = some (i : Int)

/-- Basic well-formedness reached through insert/select/delete: the strip
and the frame have equal length, the strip holds only tab buttons, and
`StackTop` is non-negative. -/
def InvR (tv : TabView) : Prop :=
  tv.tabsKids.length = tv.frameKids.length ∧ AllTabs tv.tabsKids ∧ 0 ≤ tv.stackTop

/-- `InvR` strengthened with an in-bounds `StackTop` whenever a tab
exists. -/
def InvS (tv : TabView) : Prop :=
  InvR tv ∧ (0 < NTabs tv → tv.stackTop < (NTabs tv : Int))

/-- The first `NTabs` strip children exist and are tab buttons (the strip
may additionally end in the new-tab action). -/
def StripAligned (tv : TabView) : Prop :=
  ∀ i, i < NTabs tv → ((tv.tabsKids[i]?).map isTab) = some true

/-- States reachable from the freshly initialized `TabView` through the
documented operations: `InsertTab` at a valid index (`0 ≤ idx ≤ NTabs`,
the spec's caller contract), `SelectTabIndex` at any index and
`DeleteTabIndex` at any index (both safe on invalid indices). -/
inductive Reach : TabView → Prop where
  | init : Reach initTabView
  | insert (tv : TabView) (widg : Content) (label : String) (idx : Int) :
      Reach tv → 0 ≤ idx → idx ≤ (NTabs tv : Int) →
      Reach (InsertTab tv widg label idx)
  | select (tv : TabView) (idx : Int) :
      Reach tv → Reach (SelectTabIndex tv idx).1
  | delete (tv : TabView) (idx : Int) (destroy : Bool) :
      Reach tv → Reach (DeleteTabIndex tv idx destroy).1

/-- Reachability when every insertion appends at the end (`AddTab`). -/
inductive ReachApp : TabView → Prop where
  | init : ReachApp initTabView
  | add (tv : TabView) (widg : Content) (label : String) :
      ReachApp tv → ReachApp (AddTab tv widg label).1
  | select (tv : TabView) (idx : Int) :
      ReachApp tv → ReachApp (SelectTabIndex tv idx).1
  | delete (tv : TabView) (idx : Int) (destroy : Bool) :
      ReachApp tv → ReachApp (DeleteTabIndex tv idx destroy).1

/-- Reachability when, additionally, no deletion ever targets an index
strictly below the currently visible one. -/
inductive ReachSafe : TabView → Prop where
  | init : ReachSafe initTabView
  | insert (tv : TabView) (widg : Content) (label : String) (idx : Int) :
      ReachSafe tv → 0 ≤ idx → idx ≤ (NTabs tv : Int) →
      ReachSafe (InsertTab tv widg label idx)
  | select (tv : TabView) (idx : Int) :
      ReachSafe tv → ReachSafe (SelectTabIndex tv idx).1
  | delete (tv : TabView) (idx : Int) (destroy : Bool) :
      ReachSafe tv → tv.stackTop ≤ idx →
      ReachSafe (DeleteTabIndex tv idx destroy).1

/-- Example content widgets (Go pointer identities 0, 1, 2). -/
def cA : Content := { id := 0, visible := true }

def cB : Content := { id := 1, visible := true }

def cC : Content := { id := 2, visible := true }

/-- One tab `a` (selected, visible index 0). -/
def sA : TabView := InsertTab initTabView cA "a" 0

/-- Tabs `a`, `b` appended; `a` selected, visible index 0. -/
def sAB : TabView := InsertTab sA cB "b" 1

/-- Tabs `a`, `b`, `c` appended; `a` selected, visible index 0. -/
def sABC : TabView := InsertTab sAB cC "c" 2

/-- `sABC` after selecting index 2 (`c` selected, visible index 2). -/
def sSel2 : TabView := (SelectTabIndex sABC 2).1

/-- `sSel2` after deleting index 0: two tabs remain but the visible index
is still 2, now out of range. -/
def sStale : TabView := (DeleteTabIndex sSel2 0 true).1

/-- `sA` after inserting a second tab at position 0: the button `a`,
now at position 1, keeps its stale index tag 0. -/
def sMid : TabView := InsertTab sA cB "b" 0

theorem length_insertAt (n : Nat) (x : α) (l : List α) :
    (insertAt n x l).length = l.length + 1 := by
  induction n generalizing l with
  | zero => simp [insertAt]
  | succ n ih =>
    cases l with
    | nil => simp [insertAt]
    | cons c cs => simp [insertAt, ih]

theorem getElem?_insertAt_self (x : α) (n : Nat) (l : List α) (h : n ≤ l.length) :
    (insertAt n x l)[n]? = some x := by
  induction n generalizing l with
  | zero => cases l <;> simp [insertAt]
  | succ n ih =>
    cases l with
    | nil => simp at h
    | cons c cs =>
      simp only [insertAt, List.getElem?_cons_succ]
      exact ih cs (by simpa using h)

theorem getElem?_insertAt_lt (x : α) (n : Nat) (l : List α) (i : Nat)
    (hi : i < n) (h : n ≤ l.length) :
    (insertAt n x l)[i]? = l[i]? := by
  induction n generalizing l i with
  | zero => omega
  | succ n ih =>
    cases l with
    | nil => simp at h
    | cons c cs =>
      cases i with
      | zero => simp [insertAt]
      | succ i =>
        simp only [insertAt, List.getElem?_cons_succ]
        exact ih cs i (by omega) (by simpa using h)

theorem removeAt_insertAt (x : α) (n : Nat) (l : List α) (h : n ≤ l.length) :
    removeAt n (insertAt n x l) = l := by
  induction n generalizing l with
  | zero => cases l <;> simp [insertAt, removeAt]
  | succ n ih =>
    cases l with
    | nil => simp at h
    | cons c cs =>
      simp only [insertAt, removeAt, List.cons.injEq, true_and]
      exact ih cs (by simpa using h)

theorem length_removeAt (n : Nat) (l : List α) (h : n < l.length) :
    (removeAt n l).length + 1 = l.length := by
  induction n generalizing l with
  | zero => cases laa : l with
    | nil => subst laa; simp at h
    | cons c cs => simp [removeAt]
  | succ n ih =>
    cases l with
    | nil => simp at h
    | cons c cs =>
      simp only [removeAt, List.length_cons]
      have := ih cs (by simpa using h)
      omega

theorem getElem?_removeAt_lt (n : Nat) (l : List α) (i : Nat) (hi : i < n) :
    (removeAt n l)[i]? = l[i]? := by
  induction n generalizing l i with
  | zero => omega
  | succ n ih =>
    cases l with
    | nil => simp [removeAt]
    | cons c cs =>
      cases i with
      | zero => simp [removeAt]
      | succ i =>
        simp only [removeAt, List.getElem?_cons_succ]
        exact ih cs i (by omega)

theorem length_modifyAt (f : α → α) (n : Nat) (l : List α) :
    (modifyAt f n l).length = l.length := by
  induction n generalizing l with
  | zero => cases l <;> simp [modifyAt]
  | succ n ih =>
    cases l with
    | nil => simp [modifyAt]
    | cons c cs => simp [modifyAt, ih]

theorem getElem?_modifyAt_self (f : α → α) (n : Nat) (l : List α) :
    (modifyAt f n l)[n]? = (l[n]?).map f := by
  induction n generalizing l with
  | zero => cases l <;> simp [modifyAt]
  | succ n ih =>
    cases l with
    | nil => simp [modifyAt]
    | cons c cs =>
      simp only [modifyAt, List.getElem?_cons_succ]
      exact ih cs

theorem getElem?_modifyAt_ne (f : α → α) (n : Nat) (l : List α) (i : Nat) (h : i ≠ n) :
    (modifyAt f n l)[i]? = l[i]? := by
  induction n generalizing l i with
  | zero =>
    cases l with
    | nil => simp [modifyAt]
    | cons c cs => cases i with
      | zero => omega
      | succ i => simp [modifyAt]
  | succ n ih =>
    cases l with
    | nil => simp [modifyAt]
    | cons c cs =>
      cases i with
      | zero => simp [modifyAt]
      | succ i =>
        simp only [modifyAt, List.getElem?_cons_succ]
        exact ih cs i (by omega)

theorem modifyAt_insertAt (f : α → α) (x : α) (n : Nat) (l : List α) (h : n ≤ l.length) :
    modifyAt f n (insertAt n x l) = insertAt n (f x) l := by
  induction n generalizing l with
  | zero => cases l <;> simp [insertAt, modifyAt]
  | succ n ih =>
    cases l with
    | nil => simp at h
    | cons c cs =>
      simp only [insertAt, modifyAt, List.cons.injEq, true_and]
      exact ih cs (by simpa using h)

theorem length_mapIdxFrom (f : Nat → α → α) (k : Nat) (l : List α) :
    (mapIdxFrom f k l).length = l.length := by
  induction l generalizing k with
  | nil => simp [mapIdxFrom]
  | cons c cs ih => simp [mapIdxFrom, ih]

theorem getElem?_mapIdxFrom (f : Nat → α → α) (k : Nat) (l : List α) (i : Nat) :
    (mapIdxFrom f k l)[i]? = (l[i]?).map (fun c => f (k + i) c) := by
  induction l generalizing k i with
  | nil => simp [mapIdxFrom]
  | cons c cs ih =>
    cases i with
    | zero => simp [mapIdxFrom]
    | succ i =>
      simp only [mapIdxFrom, List.getElem?_cons_succ, ih cs.length, ih (k + 1) i]
      have : k + 1 + i = k + (i + 1) := by omega
      rw [this]

theorem forall_mem_insertAt {p : α → Prop} (x : α) (n : Nat) (l : List α)
    (hx : p x) (hl : ∀ c ∈ l, p c) : ∀ c ∈ insertAt n x l, p c := by
  induction n generalizing l with
  | zero =>
    intro c hc
    cases hc with
    | head => exact hx
    | tail _ hb => exact hl _ hb
  | succ n ih =>
    cases l with
    | nil =>
      intro c hc
      cases hc with
      | head => exact hx
      | tail _ hb => cases hb
    | cons a as =>
      intro c hc
      cases hc with
      | head => exact hl a (by simp)
      | tail _ hb => exact ih as (fun d hd => hl d (by simp [hd])) c hb

theorem forall_mem_removeAt {p : α → Prop} (n : Nat) (l : List α)
    (hl : ∀ c ∈ l, p c) : ∀ c ∈ removeAt n l, p c := by
  induction n generalizing l with
  | zero =>
    cases l with
    | nil => intro c hc; simp [removeAt] at hc
    | cons a as =>
      intro c hc
      simp only [removeAt] at hc
      exact hl c (List.mem_cons_of_mem a hc)
  | succ n ih =>
    cases l with
    | nil => intro c hc; simp [removeAt] at hc
    | cons a as =>
      intro c hc
      cases hc with
      | head => exact hl a (by simp)
      | tail _ hb => exact ih as (fun d hd => hl d (by simp [hd])) c hb

theorem forall_mem_modifyAt {p : α → Prop} (f : α → α) (n : Nat) (l : List α)
    (hf : ∀ c, p c → p (f c)) (hl : ∀ c ∈ l, p c) : ∀ c ∈ modifyAt f n l, p c := by
  induction n generalizing l with
  | zero =>
    cases l with
    | nil => intro c hc; simp [modifyAt] at hc
    | cons a as =>
      intro c hc
      cases hc with
      | head => exact hf a (hl a (by simp))
      | tail _ hb => exact hl c (List.mem_cons_of_mem a hb)
  | succ n ih =>
    cases l with
    | nil => intro c hc; simp [modifyAt] at hc
    | cons a as =>
      intro c hc
      cases hc with
      | head => exact hl a (by simp)
      | tail _ hb => exact ih as (fun d hd => hl d (by simp [hd])) c hb

theorem forall_mem_mapIdxFrom {p : α → Prop} (f : Nat → α → α) (k : Nat) (l : List α)
    (hf : ∀ j c, p c → p (f j c)) (hl : ∀ c ∈ l, p c) : ∀ c ∈ mapIdxFrom f k l, p c := by
  induction l generalizing k with
  | nil => intro c hc; simp [mapIdxFrom] at hc
  | cons a as ih =>
    intro c hc
    cases hc with
    | head => exact hf k a (hl a (by simp))
    | tail _ hb => exact ih (k + 1) (fun d hd => hl d (by simp [hd])) c hb

theorem stripAligned_getElem {tv : TabView} (hA : StripAligned tv) {i : Nat}
    (hi : i < NTabs tv) : ∃ b, tv.tabsKids[i]? = some (.tab b) := by
  have h := hA i hi
  rcases hk : tv.tabsKids[i]? with _ | c
  · rw [hk] at h; exact Option.noConfusion h
  · rw [hk] at h
    cases c with
    | tab b => exact ⟨b, rfl⟩
    | newTabAct => simp [isTab] at h

theorem allTabs_stripAligned {tv : TabView}
    (hlen : NTabs tv ≤ tv.tabsKids.length) (hA : AllTabs tv.tabsKids) :
    StripAligned tv := by
  intro i hi
  have hlt : i < tv.tabsKids.length := by omega
  have h := List.getElem?_eq_getElem hlt
  have hm := hA _ (List.getElem_mem hlt)
  rw [h]
  simp [hm]

theorem TabAtIndex_eq_none {tv : TabView} {idx : Int}
    (h : idx < 0 ∨ (NTabs tv : Int) ≤ idx) : TabAtIndex tv idx = none := by
  unfold TabAtIndex
  rw [if_pos h]

theorem TabAtIndex_eq_some_of {tv : TabView} {idx : Int} {b : TabButton} {c : Content}
    (h0 : 0 ≤ idx) (h1 : idx < (NTabs tv : Int))
    (hb : tv.tabsKids[idx.toNat]? = some (.tab b))
    (hc : tv.frameKids[idx.toNat]? = some c) :
    TabAtIndex tv idx = some (c, b) := by
  unfold TabAtIndex
  rw [if_neg (by omega), hb, hc]

theorem TabAtIndex_eq_some {tv : TabView} {idx : Int} {p : Content × TabButton}
    (h : TabAtIndex tv idx = some p) :
    0 ≤ idx ∧ idx < (NTabs tv : Int) ∧
      tv.tabsKids[idx.toNat]? = some (.tab p.2) ∧
      tv.frameKids[idx.toNat]? = some p.1 := by
  unfold TabAtIndex at h
  by_cases hg : idx < 0 ∨ (NTabs tv : Int) ≤ idx
  · rw [if_pos hg] at h; exact Option.noConfusion h
  · rw [if_neg hg] at h
    push_neg at hg
    rcases hk : tv.tabsKids[idx.toNat]? with _ | c
    · rw [hk] at h; exact Option.noConfusion h
    · rw [hk] at h
      cases c with
      | newTabAct => exact Option.noConfusion h
      | tab b =>
        rcases hf : tv.frameKids[idx.toNat]? with _ | w
        · rw [hf] at h; exact Option.noConfusion h
        · rw [hf] at h
          cases h
          exact ⟨hg.1, hg.2, by simp [hk], by simp [hf]⟩

theorem getElem?_UnselectOtherTabs (tv : TabView) (idx : Int) (i : Nat) :
    (UnselectOtherTabs tv idx).tabsKids[i]? =
      (tv.tabsKids[i]?).map (fun c =>
        if i < NTabs tv ∧ (i : Int) ≠ idx then
          match c with
          | .tab b => .tab { b with selected := false }
          | c => c
        else c) := by
  simp [UnselectOtherTabs, getElem?_mapIdxFrom]

theorem getElem?_RenumberTabs (tv : TabView) (i : Nat) :
    (RenumberTabs tv).tabsKids[i]? =
      (tv.tabsKids[i]?).map (fun c =>
        if i < NTabs tv then
          match c with
          | .tab b => .tab { b with data := (i : Int) }
          | c => c
        else c) := by
  simp [RenumberTabs, getElem?_mapIdxFrom]

theorem SelectTabIndex_eq_of_invalid {tv : TabView} {idx : Int}
    (h : idx < 0 ∨ (NTabs tv : Int) ≤ idx) :
    SelectTabIndex tv idx = (tv, none) := by
  unfold SelectTabIndex
  rw [TabAtIndex_eq_none h]

theorem SelectTabIndex_eq_of_noop {tv : TabView} {idx : Int} {b : TabButton} {c : Content}
    (h : TabAtIndex tv idx = some (c, b)) (hs : tv.stackTop = idx) :
    SelectTabIndex tv idx = (tv, some c) := by
  unfold SelectTabIndex
  rw [h]
  simp only []
  rw [if_pos hs]

theorem SelectTabIndex_of_ne {tv : TabView} {idx : Int} {b : TabButton}
    (h0 : 0 ≤ idx) (h1 : idx < (NTabs tv : Int))
    (hb : tv.tabsKids[idx.toNat]? = some (.tab b))
    (hne : tv.stackTop ≠ idx) :
    (SelectTabIndex tv idx).1.stackTop = idx ∧
    (SelectTabIndex tv idx).2 = tv.frameKids[idx.toNat]? ∧
    (SelectTabIndex tv idx).1.frameKids = tv.frameKids ∧
    (∀ i, (SelectTabIndex tv idx).1.tabsKids[i]? =
      if i = idx.toNat then some (.tab { b with selected := true })
      else (tv.tabsKids[i]?).map (fun c =>
        if i < NTabs tv then
          match c with
          | .tab b' => .tab { b' with selected := false }
          | c => c
        else c)) := by
  have hlt : idx.toNat < tv.frameKids.length := by
    unfold NTabs at h1; omega
  have hc : tv.frameKids[idx.toNat]? = some (tv.frameKids[idx.toNat]) :=
    List.getElem?_eq_getElem hlt
  have hTA := TabAtIndex_eq_some_of h0 h1 hb hc
  unfold SelectTabIndex
  rw [hTA]
  simp only []
  rw [if_neg hne]
  refine ⟨rfl, hc.symm, rfl, ?_⟩
  intro i
  by_cases hi : i = idx.toNat
  · subst hi
    rw [if_pos rfl]
    show (setSelAt (UnselectOtherTabs tv idx).tabsKids idx.toNat true)[idx.toNat]? = _
    rw [setSelAt, getElem?_modifyAt_self, getElem?_UnselectOtherTabs, hb]
    have hcond : ¬(idx.toNat < NTabs tv ∧ (idx.toNat : Int) ≠ idx) := by omega
    simp only [Option.map_some']
    rw [if_neg hcond]
  · rw [if_neg hi]
    show (setSelAt (UnselectOtherTabs tv idx).tabsKids idx.toNat true)[i]? = _
    rw [setSelAt, getElem?_modifyAt_ne _ _ _ _ hi, getElem?_UnselectOtherTabs]
    have hii : (i : Int) ≠ idx := by omega
    rcases tv.tabsKids[i]? with _ | c
    · rfl
    · by_cases hsz : i < NTabs tv
      · simp [hsz, hii]
      · simp [hsz]

theorem SelectTabIndex_tabsKids_length (tv : TabView) (idx : Int) :
    (SelectTabIndex tv idx).1.tabsKids.length = tv.tabsKids.length := by
  unfold SelectTabIndex
  cases h : TabAtIndex tv idx with
  | none => rfl
  | some p =>
    obtain ⟨c, b⟩ := p
    simp only []
    by_cases hs : tv.stackTop = idx
    · rw [if_pos hs]
    · rw [if_neg hs]
      show (setSelAt (UnselectOtherTabs tv idx).tabsKids idx.toNat true).length = _
      rw [setSelAt, length_modifyAt]
      show (mapIdxFrom _ 0 tv.tabsKids).length = _
      rw [length_mapIdxFrom]

theorem SelectTabIndex_frameKids (tv : TabView) (idx : Int) :
    (SelectTabIndex tv idx).1.frameKids = tv.frameKids := by
  unfold SelectTabIndex
  cases h : TabAtIndex tv idx with
  | none => rfl
  | some p =>
    obtain ⟨c, b⟩ := p
    simp only []
    by_cases hs : tv.stackTop = idx
    · rw [if_pos hs]
    · rw [if_neg hs]; rfl

theorem SelectTabIndex_newTabButton (tv : TabView) (idx : Int) :
    (SelectTabIndex tv idx).1.newTabButton = tv.newTabButton := by
  unfold SelectTabIndex
  cases h : TabAtIndex tv idx with
  | none => rfl
  | some p =>
    obtain ⟨c, b⟩ := p
    simp only []
    by_cases hs : tv.stackTop = idx
    · rw [if_pos hs]
    · rw [if_neg hs]; rfl

theorem SelectTabIndex_stackTop (tv : TabView) (idx : Int) :
    (SelectTabIndex tv idx).1.stackTop = tv.stackTop ∨
      ((SelectTabIndex tv idx).1.stackTop = idx ∧
        0 ≤ idx ∧ idx < (NTabs tv : Int)) := by
  unfold SelectTabIndex
  cases h : TabAtIndex tv idx with
  | none => exact Or.inl rfl
  | some p =>
    obtain ⟨c, b⟩ := p
    have hbounds := TabAtIndex_eq_some h
    simp only []
    by_cases hs : tv.stackTop = idx
    · rw [if_pos hs]; exact Or.inl rfl
    · rw [if_neg hs]
      exact Or.inr ⟨rfl, hbounds.1, hbounds.2.1⟩

theorem SelectTabIndex_allTabs {tv : TabView} (idx : Int)
    (hA : AllTabs tv.tabsKids) : AllTabs (SelectTabIndex tv idx).1.tabsKids := by
  unfold SelectTabIndex
  cases h : TabAtIndex tv idx with
  | none => exact hA
  | some p =>
    obtain ⟨c, b⟩ := p
    simp only []
    by_cases hs : tv.stackTop = idx
    · rw [if_pos hs]; exact hA
    · rw [if_neg hs]
      show AllTabs (setSelAt (UnselectOtherTabs tv idx).tabsKids idx.toNat true)
      rw [setSelAt]
      apply forall_mem_modifyAt
      · intro d hd; cases d <;> simpa [isTab] using hd
      · show AllTabs (mapIdxFrom _ 0 tv.tabsKids)
        apply forall_mem_mapIdxFrom
        · intro j d hd
          by_cases hj : j < NTabs tv ∧ (j : Int) ≠ idx
          · cases d <;> simp [hj, isTab] <;> simpa [isTab] using hd
          · simpa [hj] using hd
        · exact hA

theorem SelectTabIndex_eq_of_none {tv : TabView} {idx : Int}
    (h : TabAtIndex tv idx = none) : SelectTabIndex tv idx = (tv, none) := by
  unfold SelectTabIndex
  rw [h]

theorem SelectTabIndex_tags {tv : TabView} (idx : Int)
    (hT : TagsOK tv.tabsKids) : TagsOK (SelectTabIndex tv idx).1.tabsKids := by
  intro i hi
  rw [SelectTabIndex_tabsKids_length] at hi
  have hTi := hT i hi
  rcases h : TabAtIndex tv idx with _ | p
  · rw [SelectTabIndex_eq_of_none h]; exact hTi
  · obtain ⟨c, b⟩ := p
    have hbounds := TabAtIndex_eq_some h
    by_cases hs : tv.stackTop = idx
    · rw [SelectTabIndex_eq_of_noop h hs]; exact hTi
    · have hsel := (SelectTabIndex_of_ne hbounds.1 hbounds.2.1 hbounds.2.2.1 hs).2.2.2 i
      rw [hsel]
      by_cases hii : i = idx.toNat
      · subst hii
        rw [if_pos rfl]
        rw [hbounds.2.2.1] at hTi
        simpa [stripData] using hTi
      · rw [if_neg hii]
        rcases hk : tv.tabsKids[i]? with _ | d
        · rw [hk] at hTi; exact Option.noConfusion hTi
        · rw [hk] at hTi
          by_cases hsz : i < NTabs tv
          · cases d <;> simpa [hsz, stripData] using hTi
          · simpa [hsz] using hTi

theorem SelectTabIndex_stackTop_eq {tv : TabView} {idx : Int} {b : TabButton} {c : Content}
    (h : TabAtIndex tv idx = some (c, b)) :
    (SelectTabIndex tv idx).1.stackTop = idx := by
  unfold SelectTabIndex
  rw [h]
  simp only []
  by_cases hs : tv.stackTop = idx
  · rw [if_pos hs]; exact hs
  · rw [if_neg hs]

theorem SelectTabIndex_invR {tv : TabView} (idx : Int) (hI : InvR tv) :
    InvR (SelectTabIndex tv idx).1 := by
  refine ⟨?_, SelectTabIndex_allTabs idx hI.2.1, ?_⟩
  · rw [SelectTabIndex_tabsKids_length, SelectTabIndex_frameKids]; exact hI.1
  · rcases SelectTabIndex_stackTop tv idx with h | h
    · rw [h]; exact hI.2.2
    · rw [h.1]; exact h.2.1

theorem SelectTabIndex_invS {tv : TabView} (idx : Int) (hS : InvS tv) :
    InvS (SelectTabIndex tv idx).1 := by
  refine ⟨SelectTabIndex_invR idx hS.1, ?_⟩
  intro hpos
  have hN : NTabs (SelectTabIndex tv idx).1 = NTabs tv := by
    unfold NTabs; rw [SelectTabIndex_frameKids]
  rw [hN] at hpos ⊢
  rcases SelectTabIndex_stackTop tv idx with h | h
  · rw [h]; exact hS.2 hpos
  · rw [h.1]; exact h.2.2

theorem TabAtIndex_some_of_invR {tv : TabView} {idx : Int} (hI : InvR tv)
    (h0 : 0 ≤ idx) (h1 : idx < (NTabs tv : Int)) :
    ∃ c b, TabAtIndex tv idx = some (c, b) := by
  have hal : StripAligned tv :=
    allTabs_stripAligned (by unfold NTabs; rw [hI.1]) hI.2.1
  have hlt : idx.toNat < NTabs tv := by omega
  obtain ⟨b, hb⟩ := stripAligned_getElem hal hlt
  have hfl : idx.toNat < tv.frameKids.length := hlt
  have hc : tv.frameKids[idx.toNat]? = some (tv.frameKids[idx.toNat]) :=
    List.getElem?_eq_getElem hfl
  exact ⟨_, b, TabAtIndex_eq_some_of h0 h1 hb hc⟩

theorem InsertTab_empty {tv : TabView} (c : Content) (label : String)
    (h : tv.frameKids = []) :
    InsertTab tv c label 0 =
      { tabsKids :=
          .tab { name := label, text := label, tooltip := label,
                 data := 0, selected := true } :: tv.tabsKids,
        frameKids := [c], stackTop := 0, newTabButton := tv.newTabButton } := by
  unfold InsertTab InsertTabOnlyAt
  simp [h, insertAt, setSelAt, modifyAt]

theorem InsertTab_nonempty {tv : TabView} (c : Content) (label : String) {idx : Int}
    (h : tv.frameKids ≠ []) (h0 : 0 ≤ idx) (h1 : idx ≤ (NTabs tv : Int)) :
    InsertTab tv c label idx =
      { tabsKids := insertAt idx.toNat
          (.tab { name := label, text := label, tooltip := label,
                  data := idx, selected := false }) tv.tabsKids,
        frameKids := insertAt idx.toNat { c with visible := false } tv.frameKids,
        stackTop := tv.stackTop, newTabButton := tv.newTabButton } := by
  have hpos : 0 < tv.frameKids.length := List.length_pos.mpr h
  have hlen : idx.toNat ≤ tv.frameKids.length := by
    unfold NTabs at h1; omega
  unfold InsertTab InsertTabOnlyAt
  simp only []
  rw [length_insertAt]
  rw [if_neg (by omega : ¬(tv.frameKids.length + 1 = 1))]
  rw [modifyAt_insertAt _ _ _ _ hlen]

theorem InsertTab_invR {tv : TabView} {idx : Int} (c : Content) (label : String)
    (h0 : 0 ≤ idx) (h1 : idx ≤ (NTabs tv : Int)) (hI : InvR tv) :
    InvR (InsertTab tv c label idx) := by
  by_cases h : tv.frameKids = []
  · have hidx : idx = 0 := by unfold NTabs at h1; rw [h] at h1; simp at h1; omega
    subst hidx
    rw [InsertTab_empty c label h]
    have hstrip : tv.tabsKids = [] := by
      have := hI.1
      rw [h] at this
      exact List.length_eq_zero.mp (by simpa using this)
    refine ⟨by simp [hstrip], ?_, by simp⟩
    intro d hd
    rw [hstrip] at hd
    rcases hd with _ | hd
    · rfl
    · cases (by assumption : d ∈ ([] : List StripChild))
  · rw [InsertTab_nonempty c label h h0 h1]
    refine ⟨?_, ?_, hI.2.2⟩
    · simp only [length_insertAt]
      rw [hI.1]
    · exact forall_mem_insertAt _ _ _ rfl hI.2.1

theorem InsertTab_invS {tv : TabView} {idx : Int} (c : Content) (label : String)
    (h0 : 0 ≤ idx) (h1 : idx ≤ (NTabs tv : Int)) (hS : InvS tv) :
    InvS (InsertTab tv c label idx) := by
  refine ⟨InsertTab_invR c label h0 h1 hS.1, ?_⟩
  by_cases h : tv.frameKids = []
  · have hidx : idx = 0 := by unfold NTabs at h1; rw [h] at h1; simp at h1; omega
    subst hidx
    rw [InsertTab_empty c label h]
    intro _
    simp [NTabs]
  · rw [InsertTab_nonempty c label h h0 h1]
    intro _
    have hpos : 0 < tv.frameKids.length := List.length_pos.mpr h
    have := hS.2 (by unfold NTabs; omega)
    unfold NTabs at this ⊢
    simp only [length_insertAt]
    omega

theorem InsertTab_tags {tv : TabView} (c : Content) (label : String)
    (hI : InvR tv) (hT : TagsOK tv.tabsKids) :
    TagsOK (InsertTab tv c label (NTabs tv : Int)).tabsKids := by
  by_cases h : tv.frameKids = []
  · have hz : (NTabs tv : Int) = 0 := by unfold NTabs; rw [h]; rfl
    rw [hz, InsertTab_empty c label h]
    have hstrip : tv.tabsKids = [] := by
      have := hI.1
      rw [h] at this
      exact List.length_eq_zero.mp (by simpa using this)
    rw [hstrip]
    intro i hi
    simp at hi
    subst hi
    rfl
  · rw [InsertTab_nonempty c label h (by positivity) (le_refl _)]
    have htoNat : (NTabs tv : Int).toNat = NTabs tv := Int.toNat_natCast _
    have hslen : tv.tabsKids.length = NTabs tv := hI.1
    intro i hi
    simp only [length_insertAt, htoNat] at hi ⊢
    by_cases hlt : i < NTabs tv
    · rw [getElem?_insertAt_lt _ _ _ _ (by omega) (by omega)]
      exact hT i (by omega)
    · have hieq : i = NTabs tv := by rw [hslen] at hi; omega
      subst hieq
      rw [← hslen, getElem?_insertAt_self _ _ _ (by omega)]
      simp [stripData, hslen]

theorem lt_of_getElem?_some {l : List α} {i : Nat} {a : α} (h : l[i]? = some a) :
    i < l.length := by
  by_contra hx
  rw [List.getElem?_eq_none (by omega)] at h
  exact Option.noConfusion h

theorem RenumberTabs_tabsKids_length (tv : TabView) :
    (RenumberTabs tv).tabsKids.length = tv.tabsKids.length := by
  show (mapIdxFrom _ 0 tv.tabsKids).length = tv.tabsKids.length
  rw [length_mapIdxFrom]

theorem RenumberTabs_frameKids (tv : TabView) :
    (RenumberTabs tv).frameKids = tv.frameKids := rfl

theorem RenumberTabs_stackTop (tv : TabView) :
    (RenumberTabs tv).stackTop = tv.stackTop := rfl

theorem RenumberTabs_allTabs {tv : TabView} (hA : AllTabs tv.tabsKids) :
    AllTabs (RenumberTabs tv).tabsKids := by
  show AllTabs (mapIdxFrom _ 0 tv.tabsKids)
  apply forall_mem_mapIdxFrom
  · intro j d hd
    by_cases hj : j < NTabs tv
    · cases d with
      | tab b => simp [hj, isTab]
      | newTabAct => simpa [hj, isTab] using hd
    · simpa [hj] using hd
  · exact hA

theorem RenumberTabs_tags {tv : TabView} (hlen : tv.tabsKids.length = NTabs tv)
    (hA : AllTabs tv.tabsKids) : TagsOK (RenumberTabs tv).tabsKids := by
  intro i hi
  rw [RenumberTabs_tabsKids_length] at hi
  rw [getElem?_RenumberTabs]
  have hsome : tv.tabsKids[i]? = some (tv.tabsKids[i]) := List.getElem?_eq_getElem hi
  rw [hsome]
  have hmem := hA _ (List.getElem_mem hi)
  have hlt : i < NTabs tv := by omega
  cases hq : tv.tabsKids[i] with
  | newTabAct => rw [hq] at hmem; simp [isTab] at hmem
  | tab b => simp [hlt, stripData]

theorem DeleteTabIndex_eq_of_none {tv : TabView} {idx : Int} {d : Bool}
    (h : TabAtIndex tv idx = none) :
    DeleteTabIndex tv idx d = (tv, none, false) := by
  unfold DeleteTabIndex
  rw [h]

theorem DeleteTabIndex_fst_eq {tv : TabView} {idx : Int} {d : Bool}
    {b : TabButton} {c : Content} (h : TabAtIndex tv idx = some (c, b)) :
    (DeleteTabIndex tv idx d).1 =
      (if 0 ≤ (if tv.stackTop = idx then
                 if 0 < idx then idx - 1
                 else if idx < (NTabs tv : Int) - 1 then idx else -1
               else -1) then
         (SelectTabIndex
           (RenumberTabs { tv with frameKids := removeAt idx.toNat tv.frameKids,
                                   tabsKids := removeAt idx.toNat tv.tabsKids })
           (if tv.stackTop = idx then
              if 0 < idx then idx - 1
              else if idx < (NTabs tv : Int) - 1 then idx else -1
            else -1)).1
       else
         RenumberTabs { tv with frameKids := removeAt idx.toNat tv.frameKids,
                                tabsKids := removeAt idx.toNat tv.tabsKids }) ∧
      (DeleteTabIndex tv idx d).2.2 = true := by
  unfold DeleteTabIndex
  rw [h]
  simp only []
  cases d <;> exact ⟨rfl, rfl⟩

theorem DeleteTabIndex_invR {tv : TabView} (idx : Int) (d : Bool) (hI : InvR tv) :
    InvR (DeleteTabIndex tv idx d).1 := by
  rcases h : TabAtIndex tv idx with _ | p
  · rw [DeleteTabIndex_eq_of_none h]; exact hI
  · obtain ⟨c, b⟩ := p
    have hbounds := TabAtIndex_eq_some h
    have hltf : idx.toNat < tv.frameKids.length := by
      unfold NTabs at hbounds; omega
    have hlts : idx.toNat < tv.tabsKids.length := lt_of_getElem?_some hbounds.2.2.1
    rw [(DeleteTabIndex_fst_eq h).1]
    have hI1 : InvR { tv with frameKids := removeAt idx.toNat tv.frameKids,
                              tabsKids := removeAt idx.toNat tv.tabsKids } := by
      refine ⟨?_, forall_mem_removeAt _ _ hI.2.1, hI.2.2⟩
      show (removeAt idx.toNat tv.tabsKids).length = (removeAt idx.toNat tv.frameKids).length
      have h1 := length_removeAt idx.toNat tv.frameKids hltf
      have h2 := length_removeAt idx.toNat tv.tabsKids hlts
      have h3 := hI.1
      omega
    have hI2 : InvR (RenumberTabs { tv with
        frameKids := removeAt idx.toNat tv.frameKids,
        tabsKids := removeAt idx.toNat tv.tabsKids }) := by
      refine ⟨?_, RenumberTabs_allTabs hI1.2.1, hI1.2.2⟩
      rw [RenumberTabs_tabsKids_length, RenumberTabs_frameKids]
      exact hI1.1
    by_cases hge : (0:Int) ≤ (if tv.stackTop = idx then
        if 0 < idx then idx - 1
        else if idx < (NTabs tv : Int) - 1 then idx else -1
      else -1)
    · rw [if_pos hge]
      exact SelectTabIndex_invR _ hI2
    · rw [if_neg hge]
      exact hI2

theorem DeleteTabIndex_tags {tv : TabView} (idx : Int) (d : Bool)
    (hI : InvR tv) (hT : TagsOK tv.tabsKids) :
    TagsOK (DeleteTabIndex tv idx d).1.tabsKids := by
  rcases h : TabAtIndex tv idx with _ | p
  · rw [DeleteTabIndex_eq_of_none h]; exact hT
  · obtain ⟨c, b⟩ := p
    have hbounds := TabAtIndex_eq_some h
    have hltf : idx.toNat < tv.frameKids.length := by
      unfold NTabs at hbounds; omega
    have hlts : idx.toNat < tv.tabsKids.length := lt_of_getElem?_some hbounds.2.2.1
    rw [(DeleteTabIndex_fst_eq h).1]
    have hT2 : TagsOK (RenumberTabs { tv with
        frameKids := removeAt idx.toNat tv.frameKids,
        tabsKids := removeAt idx.toNat tv.tabsKids }).tabsKids := by
      apply RenumberTabs_tags
      · show (removeAt idx.toNat tv.tabsKids).length =
          (removeAt idx.toNat tv.frameKids).length
        have h1 := length_removeAt idx.toNat tv.frameKids hltf
        have h2 := length_removeAt idx.toNat tv.tabsKids hlts
        have h3 := hI.1
        omega
      · exact forall_mem_removeAt _ _ hI.2.1
    by_cases hge : (0:Int) ≤ (if tv.stackTop = idx then
        if 0 < idx then idx - 1
        else if idx < (NTabs tv : Int) - 1 then idx else -1
      else -1)
    · rw [if_pos hge]
      exact SelectTabIndex_tags _ hT2
    · rw [if_neg hge]
      exact hT2

theorem DeleteTabIndex_invS {tv : TabView} (idx : Int) (d : Bool) (hS : InvS tv)
    (hidx : tv.stackTop ≤ idx) : InvS (DeleteTabIndex tv idx d).1 := by
  rcases h : TabAtIndex tv idx with _ | p
  · rw [DeleteTabIndex_eq_of_none h]; exact hS
  · obtain ⟨c, b⟩ := p
    have hI := hS.1
    have hbounds := TabAtIndex_eq_some h
    have hltf : idx.toNat < tv.frameKids.length := by
      unfold NTabs at hbounds; omega
    have hlts : idx.toNat < tv.tabsKids.length := lt_of_getElem?_some hbounds.2.2.1
    rw [(DeleteTabIndex_fst_eq h).1]
    have hI1 : InvR { tv with frameKids := removeAt idx.toNat tv.frameKids,
                              tabsKids := removeAt idx.toNat tv.tabsKids } := by
      refine ⟨?_, forall_mem_removeAt _ _ hI.2.1, hI.2.2⟩
      show (removeAt idx.toNat tv.tabsKids).length = (removeAt idx.toNat tv.frameKids).length
      have h1 := length_removeAt idx.toNat tv.frameKids hltf
      have h2 := length_removeAt idx.toNat tv.tabsKids hlts
      have h3 := hI.1
      omega
    have hI2 : InvR (RenumberTabs { tv with
        frameKids := removeAt idx.toNat tv.frameKids,
        tabsKids := removeAt idx.toNat tv.tabsKids }) := by
      refine ⟨?_, RenumberTabs_allTabs hI1.2.1, hI1.2.2⟩
      rw [RenumberTabs_tabsKids_length, RenumberTabs_frameKids]
      exact hI1.1
    have hN2 : NTabs (RenumberTabs { tv with
        frameKids := removeAt idx.toNat tv.frameKids,
        tabsKids := removeAt idx.toNat tv.tabsKids }) + 1 = NTabs tv := by
      show (removeAt idx.toNat tv.frameKids).length + 1 = tv.frameKids.length
      exact length_removeAt idx.toNat tv.frameKids hltf
    have hst2 : (RenumberTabs { tv with
        frameKids := removeAt idx.toNat tv.frameKids,
        tabsKids := removeAt idx.toNat tv.tabsKids }).stackTop = tv.stackTop := rfl
    by_cases hst : tv.stackTop = idx
    · by_cases hpos : 0 < idx
      · rw [if_pos hst, if_pos hpos,
          if_pos (by omega : (0:Int) ≤ idx - 1)]
        obtain ⟨c2, b2, hTA2⟩ := TabAtIndex_some_of_invR hI2 (by omega)
          (by omega : idx - 1 < (NTabs (RenumberTabs { tv with
            frameKids := removeAt idx.toNat tv.frameKids,
            tabsKids := removeAt idx.toNat tv.tabsKids }) : Int))
        refine ⟨SelectTabIndex_invR _ hI2, ?_⟩
        intro _
        have hfr : NTabs (SelectTabIndex (RenumberTabs { tv with
            frameKids := removeAt idx.toNat tv.frameKids,
            tabsKids := removeAt idx.toNat tv.tabsKids }) (idx - 1)).1 =
            NTabs (RenumberTabs { tv with
            frameKids := removeAt idx.toNat tv.frameKids,
            tabsKids := removeAt idx.toNat tv.tabsKids }) := by
          unfold NTabs
          rw [SelectTabIndex_frameKids]
        rw [hfr, SelectTabIndex_stackTop_eq hTA2]
        omega
      · by_cases hlast : idx < (NTabs tv : Int) - 1
        · rw [if_pos hst, if_neg hpos, if_pos hlast,
            if_pos (by omega : (0:Int) ≤ idx)]
          obtain ⟨c2, b2, hTA2⟩ := TabAtIndex_some_of_invR hI2 (by omega)
            (by omega : idx < (NTabs (RenumberTabs { tv with
              frameKids := removeAt idx.toNat tv.frameKids,
              tabsKids := removeAt idx.toNat tv.tabsKids }) : Int))
          refine ⟨SelectTabIndex_invR _ hI2, ?_⟩
          intro _
          have hfr : NTabs (SelectTabIndex (RenumberTabs { tv with
              frameKids := removeAt idx.toNat tv.frameKids,
              tabsKids := removeAt idx.toNat tv.tabsKids }) idx).1 =
              NTabs (RenumberTabs { tv with
              frameKids := removeAt idx.toNat tv.frameKids,
              tabsKids := removeAt idx.toNat tv.tabsKids }) := by
            unfold NTabs
            rw [SelectTabIndex_frameKids]
          rw [hfr, SelectTabIndex_stackTop_eq hTA2]
          omega
        · rw [if_pos hst, if_neg hpos, if_neg hlast,
            if_neg (by omega : ¬(0:Int) ≤ -1)]
          refine ⟨hI2, ?_⟩
          intro hp
          rw [hst2]
          omega
    · rw [if_neg hst, if_neg (by omega : ¬(0:Int) ≤ -1)]
      refine ⟨hI2, ?_⟩
      intro hp
      rw [hst2]
      have hstlt : tv.stackTop < idx := lt_of_le_of_ne hidx hst
      omega

theorem invR_init : InvR initTabView :=
  ⟨rfl, fun c hc => absurd hc (List.not_mem_nil c), le_refl 0⟩

theorem reach_invR {tv : TabView} (h : Reach tv) : InvR tv := by
  induction h with
  | init => exact invR_init
  | insert tv widg label idx _ h0 h1 ih => exact InsertTab_invR widg label h0 h1 ih
  | select tv idx _ ih => exact SelectTabIndex_invR idx ih
  | delete tv idx destroy _ ih => exact DeleteTabIndex_invR idx destroy ih

theorem reachApp_invR {tv : TabView} (h : ReachApp tv) : InvR tv := by
  induction h with
  | init => exact invR_init
  | add tv widg label _ ih =>
    exact InsertTab_invR widg label (by positivity) (le_refl _) ih
  | select tv idx _ ih => exact SelectTabIndex_invR idx ih
  | delete tv idx destroy _ ih => exact DeleteTabIndex_invR idx destroy ih

theorem reachApp_tags {tv : TabView} (h : ReachApp tv) : TagsOK tv.tabsKids := by
  induction h with
  | init => intro i hi; simp [initTabView] at hi
  | add tv widg label hr ih =>
    exact InsertTab_tags widg label (reachApp_invR hr) ih
  | select tv idx _ ih => exact SelectTabIndex_tags idx ih
  | delete tv idx destroy hr ih =>
    exact DeleteTabIndex_tags idx destroy (reachApp_invR hr) ih

theorem reachSafe_invS {tv : TabView} (h : ReachSafe tv) : InvS tv := by
  induction h with
  | init =>
    refine ⟨invR_init, ?_⟩
    intro hp
    simp [NTabs, initTabView] at hp
  | insert tv widg label idx _ h0 h1 ih => exact InsertTab_invS widg label h0 h1 ih
  | select tv idx _ ih => exact SelectTabIndex_invS idx ih
  | delete tv idx destroy _ hle ih => exact DeleteTabIndex_invS idx destroy ih hle

theorem reach_sA : Reach sA :=
  Reach.insert _ _ _ _ Reach.init (by decide) (by decide)

theorem reach_sAB : Reach sAB :=
  Reach.insert _ _ _ _ reach_sA (by decide) (by decide)

theorem reach_sABC : Reach sABC :=
  Reach.insert _ _ _ _ reach_sAB (by decide) (by decide)

theorem reach_sSel2 : Reach sSel2 :=
  Reach.select _ _ reach_sABC

theorem reach_sStale : Reach sStale :=
  Reach.delete _ _ _ reach_sSel2

theorem reachApp_sA : ReachApp sA :=
  ReachApp.add _ _ _ ReachApp.init

theorem reachApp_sAB : ReachApp sAB :=
  ReachApp.add _ _ _ reachApp_sA

theorem reachSafe_sA : ReachSafe sA :=
  ReachSafe.insert _ _ _ _ ReachSafe.init (by decide) (by decide)

theorem reachSafe_sAB : ReachSafe sAB :=
  ReachSafe.insert _ _ _ _ reachSafe_sA (by decide) (by decide)

/-- A successful `SelectTabIndex` that changes the visible index leaves
exactly the button at the new index selected, on any state whose first
`NTabs` strip children are tab buttons. -/
theorem select_exactly_one_of_aligned {tv : TabView} {idx : Int}
    (hal : StripAligned tv) (h0 : 0 ≤ idx) (h1 : idx < (NTabs tv : Int))
    (hne : tv.stackTop ≠ idx) :
    ((SelectTabIndex tv idx).2.isSome = true) ∧
    (SelectTabIndex tv idx).1.stackTop = idx ∧
    (∀ i, i < NTabs tv →
      ((SelectTabIndex tv idx).1.tabsKids[i]?).map stripSelected =
        some (decide ((i : Int) = idx))) := by
  obtain ⟨b, hb⟩ := stripAligned_getElem hal (show idx.toNat < NTabs tv by omega)
  obtain ⟨hst, hres, hfr, hchar⟩ := SelectTabIndex_of_ne h0 h1 hb hne
  refine ⟨?_, hst, ?_⟩
  · rw [hres]
    have hlt : idx.toNat < tv.frameKids.length := by unfold NTabs at h1; omega
    rw [List.getElem?_eq_getElem hlt]
    rfl
  · intro i hN
    rw [hchar i]
    by_cases hi : i = idx.toNat
    · subst hi
      have hid : ((idx.toNat : Nat) : Int) = idx := by omega
      rw [hid]
      simp [stripSelected]
    · rw [if_neg hi]
      obtain ⟨d, hd⟩ := stripAligned_getElem hal hN
      rw [hd]
      have hii : ¬((i : Int) = idx) := by omega
      simp [hN, stripSelected, hii]

/-- C1, counterexample: from one tab `a`, inserting a second tab at
position 0 is a documented insert, yet afterwards the button at position 1
(the old `a`) still carries index tag 0, not 1. -/
theorem c1_counterexample :
    Reach sMid ∧ sMid.tabsKids.length = 2 ∧
      (sMid.tabsKids[1]?).map stripData = some 0 :=
  ⟨Reach.insert _ _ _ _ reach_sA (by decide) (by decide), by decide, by decide⟩

/-- C1 (amended): after every sequence of documented insert and delete
operations the tab strip and the content stack have equal length; if
moreover every insertion appends at the end (as `AddTab` does), the
tab-button at each position `i` also has index tag `i` after each
operation.  (A middle insertion does not renumber the buttons behind it —
only `DeleteTabIndex` calls `RenumberTabs` — which is what the
counterexample exhibits.) -/
theorem c1_index_alignment :
    (∀ tv : TabView, Reach tv → tv.tabsKids.length = tv.frameKids.length) ∧
    (∀ tv : TabView, ReachApp tv →
      tv.tabsKids.length = tv.frameKids.length ∧ TagsOK tv.tabsKids) :=
  ⟨fun _ h => (reach_invR h).1,
   fun _ h => ⟨(reachApp_invR h).1, reachApp_tags h⟩⟩

theorem c1_index_alignment_witness :
    Reach sAB ∧ ReachApp sAB ∧
      sAB.tabsKids.length = sAB.frameKids.length ∧ TagsOK sAB.tabsKids := by
  have hR : Reach sAB := reach_sAB
  have hA : ReachApp sAB := reachApp_sAB
  exact ⟨hR, hA, c1_index_alignment.1 sAB hR, (c1_index_alignment.2 sAB hA).2⟩

/-- C2, counterexample: append `a`, `b`, `c`, select index 2, then delete
index 0 — all documented operations — and the visible-content index is
left at 2 with only 2 tabs: neither -1 nor a valid index into the content
stack. -/
theorem c2_counterexample :
    Reach sStale ∧ sStale.stackTop ≠ -1 ∧ NTabs sStale = 2 ∧
      ¬(sStale.stackTop < (NTabs sStale : Int)) :=
  ⟨reach_sStale, by decide, by decide, by decide⟩

/-- C2 (amended): the global visible-index invariant fails, because
`DeleteTabIndex` does not adjust `StackTop` when a tab below the visible
one is deleted (and the initial empty state carries `StackTop = 0`, not
-1).  What holds: whenever `SelectTabIndex` succeeds on a reachable state
with an index that was not already visible, afterwards exactly one
tab-button reports selected state and it is the one at the new
visible-content index. -/
theorem c2_select_exactly_one :
    ∀ (tv : TabView) (idx : Int), Reach tv →
      0 ≤ idx → idx < (NTabs tv : Int) → tv.stackTop ≠ idx →
      ((SelectTabIndex tv idx).2.isSome = true) ∧
      (SelectTabIndex tv idx).1.stackTop = idx ∧
      (∀ i, i < NTabs tv →
        ((SelectTabIndex tv idx).1.tabsKids[i]?).map stripSelected =
          some (decide ((i : Int) = idx))) := by
  intro tv idx hR h0 h1 hne
  have hI := reach_invR hR
  have hal : StripAligned tv :=
    allTabs_stripAligned (by unfold NTabs; rw [hI.1]) hI.2.1
  exact select_exactly_one_of_aligned hal h0 h1 hne

theorem c2_select_exactly_one_witness :
    Reach sAB ∧ (0:Int) ≤ 1 ∧ (1:Int) < (NTabs sAB : Int) ∧ sAB.stackTop ≠ 1 ∧
      (((SelectTabIndex sAB 1).2.isSome = true) ∧
        (SelectTabIndex sAB 1).1.stackTop = 1 ∧
        (∀ i, i < NTabs sAB →
          ((SelectTabIndex sAB 1).1.tabsKids[i]?).map stripSelected =
            some (decide ((i : Int) = 1)))) :=
  ⟨reach_sAB, by decide, by decide, by decide,
    c2_select_exactly_one sAB 1 reach_sAB (by decide) (by decide) (by decide)⟩

/-- C3: evaluation at the failing input.  With tabs `[a, b]`, `a` selected
and visible index 0, `DeleteTabIndex 0` succeeds and the content that
slides into position 0 becomes the visible one (`StackTop = 0`), but its
button is NOT marked selected: the internal `SelectTabIndex(0)` call
no-ops because `StackTop` already equals 0.  The claim (and the spec) say
the tab sliding into the deleted position is selected. -/
theorem c3_delete_visible_first :
    (DeleteTabIndex sAB 0 true).2.2 = true ∧
    (DeleteTabIndex sAB 0 true).1.stackTop = 0 ∧
    NTabs (DeleteTabIndex sAB 0 true).1 = 1 ∧
    ((DeleteTabIndex sAB 0 true).1.tabsKids.all fun c => !(stripSelected c)) = true := by
  decide

/-- C4: inserting into an empty container selects the new tab and makes
index 0 visible; inserting into a non-empty container marks the new
content invisible and changes neither the visible index nor any existing
button (removing the new entries recovers the old strip and stack
exactly). -/
theorem c4_insert_selection :
    ∀ (tv : TabView) (c : Content) (label : String) (idx : Int),
      (tv.frameKids = [] → idx = 0 →
        (InsertTab tv c label idx).stackTop = 0 ∧
        (InsertTab tv c label idx).frameKids = [c] ∧
        (InsertTab tv c label idx).tabsKids[0]? =
          some (.tab { name := label, text := label, tooltip := label,
                       data := 0, selected := true })) ∧
      (tv.frameKids ≠ [] → 0 ≤ idx → idx ≤ (NTabs tv : Int) →
        idx.toNat ≤ tv.tabsKids.length →
        (InsertTab tv c label idx).stackTop = tv.stackTop ∧
        (InsertTab tv c label idx).frameKids[idx.toNat]? =
          some { c with visible := false } ∧
        removeAt idx.toNat (InsertTab tv c label idx).frameKids = tv.frameKids ∧
        (InsertTab tv c label idx).tabsKids[idx.toNat]? =
          some (.tab { name := label, text := label, tooltip := label,
                       data := idx, selected := false }) ∧
        removeAt idx.toNat (InsertTab tv c label idx).tabsKids = tv.tabsKids) := by
  intro tv c label idx
  constructor
  · intro h hidx
    subst hidx
    rw [InsertTab_empty c label h]
    exact ⟨rfl, rfl, by simp⟩
  · intro h h0 h1 hsl
    rw [InsertTab_nonempty c label h h0 h1]
    have hfl : idx.toNat ≤ tv.frameKids.length := by unfold NTabs at h1; omega
    exact ⟨rfl, getElem?_insertAt_self _ _ _ hfl, removeAt_insertAt _ _ _ hfl,
      getElem?_insertAt_self _ _ _ hsl, removeAt_insertAt _ _ _ hsl⟩

theorem c4_insert_selection_witness :
    (initTabView.frameKids = [] ∧
      ((InsertTab initTabView cA "a" 0).stackTop = 0 ∧
       (InsertTab initTabView cA "a" 0).frameKids = [cA] ∧
       (InsertTab initTabView cA "a" 0).tabsKids[0]? =
         some (.tab { name := "a", text := "a", tooltip := "a",
                      data := 0, selected := true }))) ∧
    (sA.frameKids ≠ [] ∧ (0:Int) ≤ 1 ∧ (1:Int) ≤ (NTabs sA : Int) ∧
      (1:Int).toNat ≤ sA.tabsKids.length ∧
      ((InsertTab sA cB "x" 1).stackTop = sA.stackTop ∧
       (InsertTab sA cB "x" 1).frameKids[(1:Int).toNat]? =
         some { cB with visible := false } ∧
       removeAt (1:Int).toNat (InsertTab sA cB "x" 1).frameKids = sA.frameKids ∧
       (InsertTab sA cB "x" 1).tabsKids[(1:Int).toNat]? =
         some (.tab { name := "x", text := "x", tooltip := "x",
                      data := 1, selected := false }) ∧
       removeAt (1:Int).toNat (InsertTab sA cB "x" 1).tabsKids = sA.tabsKids)) :=
  ⟨⟨rfl, (c4_insert_selection initTabView cA "a" 0).1 rfl rfl⟩,
   ⟨by decide, by decide, by decide, by decide,
    (c4_insert_selection sA cB "x" 1).2 (by decide) (by decide) (by decide)
      (by decide)⟩⟩

/-- C5: `SelectTabIndex` contract — a no-op returning the current content
on the already-visible index, a full reselect on a valid non-visible
index, and not-found with unchanged state on an out-of-range index. -/
theorem c5_select_contract :
    ∀ (tv : TabView) (idx : Int), StripAligned tv →
      ((0 ≤ idx ∧ idx < (NTabs tv : Int) ∧ tv.stackTop = idx) →
        SelectTabIndex tv idx = (tv, tv.frameKids[idx.toNat]?) ∧
        (tv.frameKids[idx.toNat]?).isSome = true) ∧
      ((0 ≤ idx ∧ idx < (NTabs tv : Int) ∧ tv.stackTop ≠ idx) →
        ((SelectTabIndex tv idx).2.isSome = true) ∧
        (SelectTabIndex tv idx).1.stackTop = idx ∧
        (∀ i, i < NTabs tv →
          ((SelectTabIndex tv idx).1.tabsKids[i]?).map stripSelected =
            some (decide ((i : Int) = idx)))) ∧
      ((idx < 0 ∨ (NTabs tv : Int) ≤ idx) →
        SelectTabIndex tv idx = (tv, none)) := by
  intro tv idx hal
  refine ⟨?_, ?_, ?_⟩
  · rintro ⟨h0, h1, hs⟩
    obtain ⟨b, hb⟩ := stripAligned_getElem hal (show idx.toNat < NTabs tv by omega)
    have hlt : idx.toNat < tv.frameKids.length := by unfold NTabs at h1; omega
    have hc := List.getElem?_eq_getElem hlt
    have hTA := TabAtIndex_eq_some_of h0 h1 hb hc
    refine ⟨?_, by rw [hc]; rfl⟩
    rw [SelectTabIndex_eq_of_noop hTA hs, hc]
  · rintro ⟨h0, h1, hne⟩
    exact select_exactly_one_of_aligned hal h0 h1 hne
  · intro hinv
    exact SelectTabIndex_eq_of_invalid hinv

theorem c5_select_contract_witness :
    StripAligned sAB ∧
    (((0:Int) ≤ 0 ∧ (0:Int) < (NTabs sAB : Int) ∧ sAB.stackTop = 0) ∧
      (SelectTabIndex sAB 0 = (sAB, sAB.frameKids[(0:Int).toNat]?) ∧
        (sAB.frameKids[(0:Int).toNat]?).isSome = true)) ∧
    (((0:Int) ≤ 1 ∧ (1:Int) < (NTabs sAB : Int) ∧ sAB.stackTop ≠ 1) ∧
      (((SelectTabIndex sAB 1).2.isSome = true) ∧
        (SelectTabIndex sAB 1).1.stackTop = 1 ∧
        (∀ i, i < NTabs sAB →
          ((SelectTabIndex sAB 1).1.tabsKids[i]?).map stripSelected =
            some (decide ((i : Int) = 1))))) ∧
    (((5:Int) < 0 ∨ (NTabs sAB : Int) ≤ 5) ∧ SelectTabIndex sAB 5 = (sAB, none)) := by
  have hal : StripAligned sAB := allTabs_stripAligned (by decide) (by unfold AllTabs; decide)
  refine ⟨hal, ⟨by decide, ?_⟩, ⟨by decide, ?_⟩, ⟨by decide, ?_⟩⟩
  · exact (c5_select_contract sAB 0 hal).1 (by decide)
  · exact (c5_select_contract sAB 1 hal).2.1 (by decide)
  · exact (c5_select_contract sAB 5 hal).2.2 (by decide)

/-- C6: the action entry points emit exactly one signal carrying the index
on success and none on an invalid index. -/
theorem c6_signal_emission :
    ∀ (tv : TabView) (idx : Int), StripAligned tv →
      ((0 ≤ idx ∧ idx < (NTabs tv : Int)) →
        (SelectTabIndexAction tv idx).2 = [(.tabSelected, idx)] ∧
        (DeleteTabIndexAction tv idx).2 = [(.tabDeleted, idx)]) ∧
      ((idx < 0 ∨ (NTabs tv : Int) ≤ idx) →
        (SelectTabIndexAction tv idx).2 = [] ∧
        (DeleteTabIndexAction tv idx).2 = []) := by
  intro tv idx hal
  constructor
  · rintro ⟨h0, h1⟩
    obtain ⟨b, hb⟩ := stripAligned_getElem hal (show idx.toNat < NTabs tv by omega)
    have hlt : idx.toNat < tv.frameKids.length := by unfold NTabs at h1; omega
    have hc := List.getElem?_eq_getElem hlt
    have hTA := TabAtIndex_eq_some_of h0 h1 hb hc
    constructor
    · by_cases hs : tv.stackTop = idx
      · unfold SelectTabIndexAction
        rw [SelectTabIndex_eq_of_noop hTA hs]
        rfl
      · obtain ⟨hsome, _, _⟩ := select_exactly_one_of_aligned hal h0 h1 hs
        unfold SelectTabIndexAction
        simp only []
        rw [if_pos hsome]
    · unfold DeleteTabIndexAction
      simp only []
      rw [if_pos (DeleteTabIndex_fst_eq hTA).2]
  · intro hinv
    constructor
    · unfold SelectTabIndexAction
      rw [SelectTabIndex_eq_of_invalid hinv]
      rfl
    · unfold DeleteTabIndexAction
      rw [DeleteTabIndex_eq_of_none (TabAtIndex_eq_none hinv)]
      rfl

theorem c6_signal_emission_witness :
    StripAligned sAB ∧
    (((0:Int) ≤ 1 ∧ (1:Int) < (NTabs sAB : Int)) ∧
      ((SelectTabIndexAction sAB 1).2 = [(.tabSelected, 1)] ∧
        (DeleteTabIndexAction sAB 1).2 = [(.tabDeleted, 1)])) ∧
    (((5:Int) < 0 ∨ (NTabs sAB : Int) ≤ 5) ∧
      ((SelectTabIndexAction sAB 5).2 = [] ∧
        (DeleteTabIndexAction sAB 5).2 = [])) := by
  have hal : StripAligned sAB := allTabs_stripAligned (by decide) (by unfold AllTabs; decide)
  exact ⟨hal, ⟨by decide, (c6_signal_emission sAB 1 hal).1 (by decide)⟩,
    ⟨by decide, (c6_signal_emission sAB 5 hal).2 (by decide)⟩⟩

theorem IndexByName_insertAt (x : StripChild) {l : List StripChild} {label : String}
    (n : Nat) (hn : n ≤ l.length) (hx : stripName x = label)
    (hl : ∀ j, j < n → ∀ c, l[j]? = some c → stripName c ≠ label) :
    IndexByName (insertAt n x l) label = some n := by
  induction n generalizing l with
  | zero =>
    cases l <;> simp [insertAt, IndexByName, hx]
  | succ n ih =>
    cases l with
    | nil => simp at hn
    | cons a as =>
      have ha : stripName a ≠ label := hl 0 (by omega) a (by simp)
      simp only [insertAt, IndexByName, if_neg ha]
      rw [ih (by simpa using hn) ?_]
      · rfl
      · intro j hj c hc
        exact hl (j + 1) (by omega) c (by simpa using hc)

/-- C7: adding a tab labelled `label` to a container in which none of the
first `NTabs` strip children carries that name, then looking the label up
by name, returns the same widget (by identity) and the same index that
`AddTab` returned. -/
theorem c7_add_find_roundtrip :
    ∀ (tv : TabView) (c : Content) (label : String),
      NTabs tv ≤ tv.tabsKids.length →
      (∀ j, j < NTabs tv → (tv.tabsKids[j]?).map stripName ≠ some label) →
      (AddTab tv c label).2 = (NTabs tv : Int) ∧
      (TabByName (AddTab tv c label).1 label).map (fun p => (p.1.id, p.2)) =
        some (c.id, NTabs tv) := by
  intro tv c label hlen hnm
  refine ⟨rfl, ?_⟩
  have hnm' : ∀ j, j < NTabs tv → ∀ s, tv.tabsKids[j]? = some s →
      stripName s ≠ label := by
    intro j hj s hs
    have hx := hnm j hj
    rw [hs] at hx
    simpa using hx
  have hfst : (AddTab tv c label).1 = InsertTab tv c label (NTabs tv : Int) := rfl
  rw [hfst]
  by_cases h : tv.frameKids = []
  · have hz : NTabs tv = 0 := by unfold NTabs; rw [h]; rfl
    have hz' : (NTabs tv : Int) = 0 := by rw [hz]; rfl
    rw [hz', InsertTab_empty c label h]
    unfold TabByName
    have hIB : IndexByName
        (.tab { name := label, text := label, tooltip := label,
                data := 0, selected := true } :: tv.tabsKids) label = some 0 := by
      simp [IndexByName, stripName]
    rw [hIB]
    simp [hz]
  · rw [InsertTab_nonempty c label h (by positivity) (le_refl _)]
    unfold TabByName
    have htoNat : ((NTabs tv : Int)).toNat = NTabs tv := Int.toNat_natCast _
    have hIB : IndexByName (insertAt ((NTabs tv : Int)).toNat
        (.tab { name := label, text := label, tooltip := label,
                data := (NTabs tv : Int), selected := false }) tv.tabsKids) label =
        some (NTabs tv) := by
      rw [htoNat]
      exact IndexByName_insertAt _ (NTabs tv) hlen rfl hnm'
    rw [hIB]
    simp only []
    have hframe : (insertAt ((NTabs tv : Int)).toNat { c with visible := false }
        tv.frameKids)[NTabs tv]? = some { c with visible := false } := by
      rw [htoNat]
      exact getElem?_insertAt_self _ _ _ (le_refl _)
    rw [hframe]
    rfl

theorem c7_add_find_roundtrip_witness :
    NTabs sAB ≤ sAB.tabsKids.length ∧
    (∀ j, j < NTabs sAB → (sAB.tabsKids[j]?).map stripName ≠ some "Foo") ∧
    (AddTab sAB cC "Foo").2 = (NTabs sAB : Int) ∧
    (TabByName (AddTab sAB cC "Foo").1 "Foo").map (fun p => (p.1.id, p.2)) =
      some (cC.id, NTabs sAB) := by
  refine ⟨by decide, by decide, ?_⟩
  exact c7_add_find_roundtrip sAB cC "Foo" (by decide) (by decide)

theorem ConfigNewTabButton_eq (tv : TabView) :
    ConfigNewTabButton tv =
      if tv.newTabButton then
        (if tv.tabsKids.length = NTabs tv + 1 then (tv, false)
         else ({ tv with
            tabsKids := insertAt tv.tabsKids.length .newTabAct tv.tabsKids }, true))
      else
        (if tv.tabsKids.length = NTabs tv then (tv, false)
         else ({ tv with
            tabsKids := removeAt (tv.tabsKids.length - 1) tv.tabsKids }, true)) := rfl

theorem ConfigNewTabButton_frameKids (tv : TabView) :
    (ConfigNewTabButton tv).1.frameKids = tv.frameKids := by
  rw [ConfigNewTabButton_eq tv]
  split <;> split <;> rfl

theorem ConfigNewTabButton_flag (tv : TabView) :
    (ConfigNewTabButton tv).1.newTabButton = tv.newTabButton := by
  rw [ConfigNewTabButton_eq tv]
  split <;> split <;> rfl

/-- When the strip already holds `NTabs + (flag ? 1 : 0)` children,
`ConfigNewTabButton` is a no-op returning `false`. -/
theorem ConfigNewTabButton_noop {tv : TabView}
    (h : tv.tabsKids.length = NTabs tv + (if tv.newTabButton then 1 else 0)) :
    ConfigNewTabButton tv = (tv, false) := by
  rw [ConfigNewTabButton_eq tv]
  by_cases hf : tv.newTabButton
  · rw [if_pos hf]
    rw [if_pos (show tv.tabsKids.length = NTabs tv + 1 from by rw [h, if_pos hf])]
  · rw [if_neg hf]
    rw [if_pos (show tv.tabsKids.length = NTabs tv from by
      rw [h, if_neg hf]; omega)]

/-- C8: on any state whose strip holds the tabs plus at most one trailing
new-tab action, one `ConfigNewTabButton` call leaves the strip with
`NTabs + (NewTabButton ? 1 : 0)` children, and every further call with the
flag and tab count unchanged is a no-op returning `false`. -/
theorem c8_config_new_tab_button :
    ∀ tv : TabView, NTabs tv ≤ tv.tabsKids.length →
      tv.tabsKids.length ≤ NTabs tv + 1 →
      (ConfigNewTabButton tv).1.tabsKids.length =
        NTabs tv + (if tv.newTabButton then 1 else 0) ∧
      ConfigNewTabButton (ConfigNewTabButton tv).1 =
        ((ConfigNewTabButton tv).1, false) := by
  intro tv h1 h2
  have klen : (ConfigNewTabButton tv).1.tabsKids.length =
      NTabs tv + (if tv.newTabButton then 1 else 0) := by
    rw [ConfigNewTabButton_eq tv]
    by_cases hf : tv.newTabButton
    · rw [if_pos hf, if_pos hf]
      by_cases hc : tv.tabsKids.length = NTabs tv + 1
      · rw [if_pos hc]; exact hc
      · rw [if_neg hc]
        show (insertAt tv.tabsKids.length .newTabAct tv.tabsKids).length =
          NTabs tv + 1
        rw [length_insertAt]
        omega
    · rw [if_neg hf, if_neg hf]
      by_cases hc : tv.tabsKids.length = NTabs tv
      · rw [if_pos hc]
        show tv.tabsKids.length = NTabs tv + 0
        omega
      · rw [if_neg hc]
        show (removeAt (tv.tabsKids.length - 1) tv.tabsKids).length = NTabs tv + 0
        have := length_removeAt (tv.tabsKids.length - 1) tv.tabsKids (by omega)
        omega
  refine ⟨klen, ?_⟩
  apply ConfigNewTabButton_noop
  have hN : NTabs (ConfigNewTabButton tv).1 = NTabs tv := by
    unfold NTabs
    rw [ConfigNewTabButton_frameKids]
  rw [ConfigNewTabButton_flag, hN, klen]

theorem c8_config_new_tab_button_witness :
    NTabs { sAB with newTabButton := true } ≤
      { sAB with newTabButton := true }.tabsKids.length ∧
    { sAB with newTabButton := true }.tabsKids.length ≤
      NTabs { sAB with newTabButton := true } + 1 ∧
    ((ConfigNewTabButton { sAB with newTabButton := true }).1.tabsKids.length =
        NTabs { sAB with newTabButton := true } +
          (if { sAB with newTabButton := true }.newTabButton then 1 else 0) ∧
      ConfigNewTabButton (ConfigNewTabButton { sAB with newTabButton := true }).1 =
        ((ConfigNewTabButton { sAB with newTabButton := true }).1, false)) :=
  ⟨by decide, by decide,
    c8_config_new_tab_button { sAB with newTabButton := true } (by decide) (by decide)⟩

/-- C9: the close-control handler is a silent no-op when the button has no
TabView ancestor, and otherwise calls `DeleteTabIndexAction` on the
ancestor with the button's stored index tag. -/
theorem c9_close_click :
    ∀ (tb : TabButton) (tv : TabView),
      closeTabClick tb none = (none, []) ∧
      closeTabClick tb (some tv) =
        (some (DeleteTabIndexAction tv tb.data).1,
          (DeleteTabIndexAction tv tb.data).2) :=
  fun _ _ => ⟨rfl, rfl⟩

/-- C10, counterexample: the state reached by appending three tabs,
selecting index 2 and deleting index 0 has two tabs and a non-negative
visible index 2 that is NOT below the tab count, and `CurTab`'s unchecked
child access at `StackTop` falls out of bounds (totalized `none`) while
its found flag is still `true`. -/
theorem c10_counterexample :
    Reach sStale ∧ 1 ≤ NTabs sStale ∧ 0 ≤ sStale.stackTop ∧
      ¬(sStale.stackTop.toNat < NTabs sStale) ∧
      (CurTab sStale).1 = none ∧ (CurTab sStale).2.2 = true :=
  ⟨reach_sStale, by decide, by decide, by decide, by decide, by decide⟩

/-- C10 (amended): the in-bounds property fails on general reachable
states (deleting below the visible index leaves `StackTop` stale), but it
holds whenever no delete ever targeted an index strictly below the
then-visible one; and for every state, `CurTab` returns `(nil, -1, false)`
exactly when there are no tabs or `StackTop` is negative. -/
theorem c10_curtab_safety :
    (∀ tv : TabView, ReachSafe tv → 0 < NTabs tv → 0 ≤ tv.stackTop →
      tv.stackTop.toNat < NTabs tv ∧ (CurTab tv).1.isSome = true) ∧
    (∀ tv : TabView, CurTab tv = (none, -1, false) ↔
      (NTabs tv = 0 ∨ tv.stackTop < 0)) := by
  constructor
  · intro tv hR hpos hst
    have hS := reachSafe_invS hR
    have hbound : tv.stackTop < (NTabs tv : Int) := hS.2 hpos
    have hlt : tv.stackTop.toNat < NTabs tv := by unfold NTabs at hbound ⊢; omega
    refine ⟨hlt, ?_⟩
    unfold CurTab
    rw [if_neg (by omega : ¬NTabs tv = 0), if_neg (by omega : ¬tv.stackTop < 0)]
    simp only []
    rw [List.getElem?_eq_getElem (show tv.stackTop.toNat < tv.frameKids.length from hlt)]
    rfl
  · intro tv
    constructor
    · intro h
      unfold CurTab at h
      by_cases h1 : NTabs tv = 0
      · exact Or.inl h1
      · rw [if_neg h1] at h
        by_cases h2 : tv.stackTop < 0
        · exact Or.inr h2
        · rw [if_neg h2] at h
          have hx := congrArg (fun p => p.2.2) h
          simp at hx
    · intro h
      unfold CurTab
      rcases h with h | h
      · rw [if_pos h]
      · by_cases h1 : NTabs tv = 0
        · rw [if_pos h1]
        · rw [if_neg h1, if_pos h]

theorem c10_curtab_safety_witness :
    ReachSafe sAB ∧ 0 < NTabs sAB ∧ 0 ≤ sAB.stackTop ∧
      (sAB.stackTop.toNat < NTabs sAB ∧ (CurTab sAB).1.isSome = true) :=
  ⟨reachSafe_sAB, by decide, by decide,
    c10_curtab_safety.1 sAB reachSafe_sAB (by decide) (by decide)⟩

end GiTab
